import Mathlib

/-!
Shallow embedding of the firebuild-shared build transport core: the resource
streaming producer (grpc_directory_resource.go, WalkResource), the stream
consumer and command decoder of the test client, the session event loop of the
test server provider, and the stopped-service behaviour of the RPC surface.
Theorems at the end of the file check the specification's claims against these
definitions.
-/

/-- Byte strings are modelled as lists of naturals. -/
abbrev Bytes := List Nat

/-- The development is parametric in the checksum function (sha256 in the source):
both sides of the protocol apply the same function, and the claims depend only on
equality or inequality of its results. -/
abbrev HashFn := Bytes → Bytes

/-- Go strings.HasPrefix, stated on the underlying character lists. -/
def hasPre : List Char → List Char → Bool
| [], _ => true
| _ :: _, [] => false
| a :: as, b :: bs => if a = b then hasPre as bs else false

/-- Go strings.TrimPrefix: drops the second argument from the front of the first
when it heads it, and otherwise returns the first unchanged. -/
def goTrimPre (s pre : String) : String :=
  if hasPre pre.data s.data then String.mk (s.data.drop pre.data.length) else s

theorem hasPre_self_append (p r : List Char) : hasPre p (p ++ r) = true := by
  induction p with
  | nil => rfl
  | cons a as ih => simp [hasPre, ih]

theorem hasPre_self (p : List Char) : hasPre p p = true := by
  simpa using hasPre_self_append p []

theorem data_append (a b : String) : (a ++ b).data = a.data ++ b.data := rfl

theorem str_ext {a b : String} (h : a.data = b.data) : a = b := by
  calc a = String.mk a.data := rfl
  _ = String.mk b.data := by rw [h]
  _ = b := rfl

theorem goTrimPre_append (a b : String) : goTrimPre (a ++ b) a = b := by
  simp [goTrimPre, data_append, hasPre_self_append]

theorem str_append_empty (a : String) : a ++ "" = a :=
  str_ext (by simp [data_append])

theorem goTrimPre_self (a : String) : goTrimPre a a = "" := by
  have h := goTrimPre_append a ""
  rwa [str_append_empty] at h

theorem goTrimPre_empty_slash : goTrimPre "" ("/") = "" := by decide

theorem str_append_assoc (a b c : String) : a ++ b ++ c = a ++ (b ++ c) :=
  str_ext (by simp [data_append])

theorem str_append_empty_iff (a b : String) : a ++ b = "" ↔ a = "" ∧ b = "" := by
  constructor
  · intro h
    have hd : a.data ++ b.data = [] := by
      have := congrArg String.data h
      simpa [data_append] using this
    rcases List.append_eq_nil.mp hd with ⟨ha, hb⟩
    exact ⟨str_ext (by simpa using ha), str_ext (by simpa using hb)⟩
  · rintro ⟨ha, hb⟩
    subst ha
    subst hb
    rfl

/-- Go filepath.Join restricted to the clean, slash-separated paths this walk
produces: empty components are skipped and non-empty ones are joined with a
slash (path cleaning is the identity on such inputs). -/
def filepathJoin (a b : String) : String :=
  if a = "" then b else if b = "" then a else a ++ ("/") ++ b

/-- Absolute path of the entry whose path relative to the walked root is rel;
filepath.WalkDir hands the producer exactly these paths. -/
def absOf (root rel : String) : String :=
  if rel = "" then root else root ++ ("/") ++ rel

/-- The remainingPath computation of WalkResource:
strings.TrimPrefix(strings.TrimPrefix(path, drr.resolved), "/"). -/
def remainingPathOf (resolved path : String) : String :=
  goTrimPre (goTrimPre path resolved) ("/")

theorem remaining_absOf (root rel : String) :
    remainingPathOf root (absOf root rel) = rel := by
  by_cases h : rel = ""
  · subst h
    simp [absOf, remainingPathOf, goTrimPre_self, goTrimPre_empty_slash]
  · simp only [absOf, remainingPathOf, if_neg h]
    rw [str_append_assoc, goTrimPre_append, goTrimPre_append]

theorem absOf_join (root rel name : String) (hroot : root ≠ "") (hname : name ≠ "") :
    filepathJoin (absOf root rel) name = absOf root (filepathJoin rel name) := by
  by_cases hrel : rel = ""
  · subst hrel
    simp [absOf, filepathJoin, hroot, hname]
  · have habs : root ++ ("/") ++ rel ≠ "" := by
      intro h
      rcases (str_append_empty_iff _ _).mp h with ⟨h1, _⟩
      rcases (str_append_empty_iff _ _).mp h1 with ⟨_, h2⟩
      exact absurd (congrArg String.data h2) (by decide)
    have hjoin : rel ++ ("/") ++ name ≠ "" := by
      intro h
      rcases (str_append_empty_iff _ _).mp h with ⟨h1, _⟩
      rcases (str_append_empty_iff _ _).mp h1 with ⟨h2, _⟩
      exact hrel h2
    simp only [absOf, filepathJoin, if_neg hrel, if_neg hname, if_neg habs, if_neg hjoin]
    apply str_ext
    simp [data_append, List.append_assoc]

/-- ResourceHeader of the wire protocol, fields as in
proto.ResourceChunk_ResourceHeader; the per-entry uuid is modelled as a Nat. -/
structure ResourceHeader where
  sourcePath : String
  targetPath : String
  fileMode : Nat
  isDir : Bool
  targetUser : String
  targetWorkdir : String
  id : Nat
deriving DecidableEq, Repr

/-- One frame of a resource stream: the payload variants of proto.ResourceChunk,
plus the nil sentinel the producer sends after the walk (streamEnd). -/
inductive Frame
| header (h : ResourceHeader)
| chunk (id : Nat) (payload : Bytes) (checksum : Bytes)
| eof (id : Nat)
| streamEnd
deriving DecidableEq, Repr

/-- Successive full reads of a bytes reader with buffer size n: splits contents
into pieces of at most n bytes. The source's read loop never terminates when
n = 0 (a zero-byte read with a nil error is not EOF), so every claim below
assumes a positive safe buffer size; the n = 0 branch here is unreachable in
those claims. -/
def chunksOf (n : Nat) (l : Bytes) : List Bytes :=
  if h : n = 0 ∨ l = [] then [] else l.take n :: chunksOf n (l.drop n)
termination_by l.length
decreasing_by
  push_neg at h
  simp only [List.length_drop]
  exact Nat.sub_lt (List.length_pos.mpr h.2) (Nat.pos_of_ne_zero h.1)

theorem flatten_chunksOf (n : Nat) (hn : 0 < n) (l : Bytes) :
    (chunksOf n l).flatten = l := by
  have hg : ∀ k, ∀ l : Bytes, l.length = k → (chunksOf n l).flatten = l := by
    intro k
    induction k using Nat.strong_induction_on with
    | _ k ih =>
      intro l hk
      rw [chunksOf]
      split
      · next h =>
        rcases h with h0 | hnil
        · omega
        · subst hnil
          rfl
      · next h =>
        push_neg at h
        have hlt : (l.drop n).length < l.length := by
          simp only [List.length_drop]
          exact Nat.sub_lt (List.length_pos.mpr h.2) (Nat.pos_of_ne_zero h.1)
        have ih2 := ih (l.drop n).length (by omega) (l.drop n) rfl
        simp [ih2]
  exact hg l.length l rfl

/-- Error component of one reader.Read result: nil, io.EOF, or any other error. -/
inductive ReadErr
| ok
| eof
| other
deriving DecidableEq, Repr

/-- Read loop of WalkResource for one open file entry. Input models the
successive (bytes read, error) results of reader.Read(buffer); mirroring the
source, a result is terminal exactly when readBytes == 0 and err == io.EOF
(then the entry's Eof frame is emitted), and EVERY other result - including a
zero-byte read with a non-EOF error - emits a Chunk frame whose checksum is the
hash of its payload and continues the loop. Second component: whether the loop
terminated via the EOF branch within the given reads. -/
def readLoop (hash : HashFn) (id : Nat) : List (Bytes × ReadErr) → List Frame × Bool
| [] => ([], false)
| r :: rest =>
  if r.1.length = 0 ∧ r.2 = ReadErr.eof then ([Frame.eof id], true)
  else
    let tail := readLoop hash id rest
    (Frame.chunk id r.1 (hash r.1) :: tail.1, tail.2)

/-- Read results a healthy bytes reader delivers for contents with buffer size
n: the successive pieces with a nil error, then one (0 bytes, io.EOF). -/
def fileReads (n : Nat) (contents : Bytes) : List (Bytes × ReadErr) :=
  (chunksOf n contents).map (fun c => (c, ReadErr.ok)) ++ [([], ReadErr.eof)]

theorem readLoop_fileReads (hash : HashFn) (id : Nat) (n : Nat) (contents : Bytes) :
    readLoop hash id (fileReads n contents) =
      ((chunksOf n contents).map (fun c => Frame.chunk id c (hash c)) ++ [Frame.eof id], true) := by
  unfold fileReads
  induction chunksOf n contents with
  | nil => simp [readLoop]
  | cons c cs ih => simp [readLoop, ih]

mutual
/-- A filesystem subtree as seen by filepath.WalkDir: an entry is a file with
contents or a directory with an ordered forest of children (WalkDir's lexical
visiting order is the forest order here). The mode models finfo.Mode().Perm(). -/
inductive FsTree
| file (name : String) (mode : Nat) (contents : Bytes)
| dir (name : String) (mode : Nat) (children : FsForest)
deriving DecidableEq, Repr

/-- An ordered list of sibling subtrees. -/
inductive FsForest
| nil
| cons (t : FsTree) (ts : FsForest)
deriving DecidableEq, Repr
end

/-- Name of the entry at the root of a subtree. -/
def FsTree.name : FsTree → String
| FsTree.file n _ _ => n
| FsTree.dir n _ _ => n

mutual
/-- Number of filesystem entries in a subtree (the entry itself included). -/
def numEntries : FsTree → Nat
| FsTree.file _ _ _ => 1
| FsTree.dir _ _ children => 1 + numEntriesF children

def numEntriesF : FsForest → Nat
| FsForest.nil => 0
| FsForest.cons t ts => numEntries t + numEntriesF ts
end

mutual
/-- Every entry of the subtree has a non-empty name (true of any real
filesystem tree; rules out degenerate joins). -/
def namesNonEmpty : FsTree → Bool
| FsTree.file n _ _ => decide (n ≠ "")
| FsTree.dir n _ children => decide (n ≠ "") && namesNonEmptyF children

def namesNonEmptyF : FsForest → Bool
| FsForest.nil => true
| FsForest.cons t ts => namesNonEmpty t && namesNonEmptyF ts
end

/-- Configuration of grpcDirectoryResource: the resolved root to walk, the safe
buffer size bounding each chunk, the source/target path prefixes and the
owner/workdir metadata copied into every header, and the checksum function. -/
structure WalkCfg where
  hash : HashFn
  resolved : String
  safeBufferSize : Nat
  sourcePath : String
  targetPath : String
  targetUser : String
  targetWorkdir : String

/-- Header constructed by the walk callback for the entry at the given
remainingPath: both wire paths join the remainder onto the configured
source-path and target-path prefixes. -/
def mkHeader (cfg : WalkCfg) (remainingPath : String) (mode : Nat) (isDir : Bool)
    (id : Nat) : ResourceHeader :=
  { sourcePath := filepathJoin cfg.sourcePath remainingPath
    targetPath := filepathJoin cfg.targetPath remainingPath
    fileMode := mode
    isDir := isDir
    targetUser := cfg.targetUser
    targetWorkdir := cfg.targetWorkdir
    id := id }

mutual
/-- The WalkDir callback of WalkResource for one entry at the given absolute
path, threading a counter that supplies the fresh per-entry id (a fresh uuid in
the source). A directory emits its header and immediately its Eof frame and
then its children's frames follow; a file emits its header followed by its read
loop's frames. Returns the emitted frames and the next fresh id. -/
def walkEntry (cfg : WalkCfg) (path : String) : FsTree → Nat → List Frame × Nat
| FsTree.dir _ mode children, n =>
  let hdr := mkHeader cfg (remainingPathOf cfg.resolved path) mode true n
  let rest := walkForest cfg path children (n + 1)
  (Frame.header hdr :: Frame.eof n :: rest.1, rest.2)
| FsTree.file _ mode contents, n =>
  let hdr := mkHeader cfg (remainingPathOf cfg.resolved path) mode false n
  let body := readLoop cfg.hash n (fileReads cfg.safeBufferSize contents)
  (Frame.header hdr :: body.1, n + 1)

/-- Frames of the successive children of a directory at the given path; each
child is visited at filepath.Join(path, name). -/
def walkForest (cfg : WalkCfg) (path : String) : FsForest → Nat → List Frame × Nat
| FsForest.nil, n => ([], n)
| FsForest.cons t ts, n =>
  let first := walkEntry cfg (filepathJoin path (FsTree.name t)) t n
  let rest := walkForest cfg path ts first.2
  (first.1 ++ rest.1, rest.2)
end

/-- WalkResource: walks the subtree rooted at the resolved path and finally
sends the nil sentinel on the channel, modelled as the streamEnd frame. -/
def walkResource (cfg : WalkCfg) (t : FsTree) : List Frame :=
  (walkEntry cfg cfg.resolved t 0).1 ++ [Frame.streamEnd]

mutual
/-- Frame sequence the specification prescribes for one entry (refinement
target): a directory yields Header(isDir=true, fresh id) immediately followed
by EntryEnd(id) and no chunk frames before its children; a file yields
Header(isDir=false, fresh id), one Chunk(id, payload, hash(payload)) per
bounded-size piece of its contents, then EntryEnd(id). -/
def specEntry (cfg : WalkCfg) (path : String) : FsTree → Nat → List Frame × Nat
| FsTree.dir _ mode children, n =>
  let hdr := mkHeader cfg (remainingPathOf cfg.resolved path) mode true n
  let rest := specForest cfg path children (n + 1)
  (Frame.header hdr :: Frame.eof n :: rest.1, rest.2)
| FsTree.file _ mode contents, n =>
  let hdr := mkHeader cfg (remainingPathOf cfg.resolved path) mode false n
  (Frame.header hdr ::
    ((chunksOf cfg.safeBufferSize contents).map (fun c => Frame.chunk n c (cfg.hash c)) ++
      [Frame.eof n]), n + 1)

def specForest (cfg : WalkCfg) (path : String) : FsForest → Nat → List Frame × Nat
| FsForest.nil, n => ([], n)
| FsForest.cons t ts, n =>
  let first := specEntry cfg (filepathJoin path (FsTree.name t)) t n
  let rest := specForest cfg path ts first.2
  (first.1 ++ rest.1, rest.2)
end

mutual
theorem walkEntry_eq_specEntry (cfg : WalkCfg) (path : String) (t : FsTree) (n : Nat) :
    walkEntry cfg path t n = specEntry cfg path t n := by
  cases t with
  | file name mode contents =>
    simp [walkEntry, specEntry, readLoop_fileReads]
  | dir name mode children =>
    simp [walkEntry, specEntry, walkForest_eq_specForest cfg path children (n + 1)]

theorem walkForest_eq_specForest (cfg : WalkCfg) (path : String) (ts : FsForest) (n : Nat) :
    walkForest cfg path ts n = specForest cfg path ts n := by
  cases ts with
  | nil => rfl
  | cons t ts =>
    simp [walkForest, specForest, walkEntry_eq_specEntry cfg (filepathJoin path (FsTree.name t)) t n,
      walkForest_eq_specForest cfg path ts]
end

/-- Number of Header frames in a stream. -/
def countHeaders : List Frame → Nat
| [] => 0
| Frame.header _ :: rest => countHeaders rest + 1
| _ :: rest => countHeaders rest

/-- Number of EntryEnd (Eof) frames in a stream. -/
def countEofs : List Frame → Nat
| [] => 0
| Frame.eof _ :: rest => countEofs rest + 1
| _ :: rest => countEofs rest

/-- Number of streamEnd sentinels in a stream. -/
def countStreamEnds : List Frame → Nat
| [] => 0
| Frame.streamEnd :: rest => countStreamEnds rest + 1
| _ :: rest => countStreamEnds rest

/-- Ids of the Header frames of a stream, in emission order. -/
def headerIds : List Frame → List Nat
| [] => []
| Frame.header h :: rest => h.id :: headerIds rest
| _ :: rest => headerIds rest

/-- Source and target paths of the Header frames of a stream, in emission
order. -/
def headerPathsOf : List Frame → List (String × String)
| [] => []
| Frame.header h :: rest => (h.sourcePath, h.targetPath) :: headerPathsOf rest
| _ :: rest => headerPathsOf rest

/-- Checks that every Chunk and EntryEnd frame carries the id of the most
recently opened Header, starting from the given open header id (none when no
header has been seen yet). -/
def idsConsistentFrom : Option Nat → List Frame → Bool
| _, [] => true
| _, Frame.header h :: rest => idsConsistentFrom (some h.id) rest
| cur, Frame.chunk i _ _ :: rest => decide (cur = some i) && idsConsistentFrom cur rest
| cur, Frame.eof i :: rest => decide (cur = some i) && idsConsistentFrom cur rest
| cur, Frame.streamEnd :: rest => idsConsistentFrom cur rest

/-- The id of the most recently opened Header after processing a stream,
starting from the given one. -/
def trackCur (cur : Option Nat) : List Frame → Option Nat
| [] => cur
| Frame.header h :: rest => trackCur (some h.id) rest
| _ :: rest => trackCur cur rest

theorem countHeaders_append (a b : List Frame) :
    countHeaders (a ++ b) = countHeaders a + countHeaders b := by
  induction a with
  | nil => simp [countHeaders]
  | cons f rest ih => cases f <;> simp [countHeaders, ih] <;> omega

theorem countEofs_append (a b : List Frame) :
    countEofs (a ++ b) = countEofs a + countEofs b := by
  induction a with
  | nil => simp [countEofs]
  | cons f rest ih => cases f <;> simp [countEofs, ih] <;> omega

theorem countStreamEnds_append (a b : List Frame) :
    countStreamEnds (a ++ b) = countStreamEnds a + countStreamEnds b := by
  induction a with
  | nil => simp [countStreamEnds]
  | cons f rest ih => cases f <;> simp [countStreamEnds, ih] <;> omega

theorem headerIds_append (a b : List Frame) :
    headerIds (a ++ b) = headerIds a ++ headerIds b := by
  induction a with
  | nil => simp [headerIds]
  | cons f rest ih => cases f <;> simp [headerIds, ih]

theorem headerPathsOf_append (a b : List Frame) :
    headerPathsOf (a ++ b) = headerPathsOf a ++ headerPathsOf b := by
  induction a with
  | nil => simp [headerPathsOf]
  | cons f rest ih => cases f <;> simp [headerPathsOf, ih]

theorem idsConsistentFrom_append (cur : Option Nat) (a b : List Frame) :
    idsConsistentFrom cur (a ++ b) =
      (idsConsistentFrom cur a && idsConsistentFrom (trackCur cur a) b) := by
  induction a generalizing cur with
  | nil => simp [idsConsistentFrom, trackCur]
  | cons f rest ih =>
    cases f <;> simp [idsConsistentFrom, trackCur, ih, Bool.and_assoc]

theorem countHeaders_chunkMap (id : Nat) (hash : HashFn) (cs : List Bytes) :
    countHeaders (cs.map (fun c => Frame.chunk id c (hash c))) = 0 := by
  induction cs with
  | nil => rfl
  | cons c cs ih => simp [countHeaders, ih]

theorem countEofs_chunkMap (id : Nat) (hash : HashFn) (cs : List Bytes) :
    countEofs (cs.map (fun c => Frame.chunk id c (hash c))) = 0 := by
  induction cs with
  | nil => rfl
  | cons c cs ih => simp [countEofs, ih]

theorem countStreamEnds_chunkMap (id : Nat) (hash : HashFn) (cs : List Bytes) :
    countStreamEnds (cs.map (fun c => Frame.chunk id c (hash c))) = 0 := by
  induction cs with
  | nil => rfl
  | cons c cs ih => simp [countStreamEnds, ih]

theorem headerIds_chunkMap (id : Nat) (hash : HashFn) (cs : List Bytes) :
    headerIds (cs.map (fun c => Frame.chunk id c (hash c))) = [] := by
  induction cs with
  | nil => rfl
  | cons c cs ih => simp [headerIds, ih]

theorem headerPathsOf_chunkMap (id : Nat) (hash : HashFn) (cs : List Bytes) :
    headerPathsOf (cs.map (fun c => Frame.chunk id c (hash c))) = [] := by
  induction cs with
  | nil => rfl
  | cons c cs ih => simp [headerPathsOf, ih]

/-- In-progress resource of the consumer (testResolvedResource): header
metadata plus the contents accumulated so far. -/
structure RRes where
  contents : Bytes
  isDir : Bool
  sourcePath : String
  targetMode : Nat
  targetPath : String
  targetUser : String
  targetWorkdir : String
deriving DecidableEq, Repr

/-- Fresh in-progress resource opened on a Header frame: empty contents and the
header's metadata, as in the ResourceChunk_Header case of the receive loop. -/
def resourceOfHeader (h : ResourceHeader) : RRes :=
  { contents := []
    isDir := h.isDir
    sourcePath := h.sourcePath
    targetMode := h.fileMode
    targetPath := h.targetPath
    targetUser := h.targetUser
    targetWorkdir := h.targetWorkdir }

/-- One value sent on the chan interface of the consumer: either the current
resource pointer (none models a nil pointer, sent when Eof precedes any
Header), or an error value (none models a nil error). -/
inductive ConsumerItem
| res (r : Option RRes)
| err (e : Option String)
deriving DecidableEq, Repr

/-- pkg/errors Wrap: returns nil when the wrapped error is nil, and otherwise
an error whose message prepends the given one. -/
def errorsWrap (e : Option String) (msg : String) : Option String :=
  match e with
  | none => none
  | some s => some (msg ++ (": ") ++ s)

/-- Receive loop of (testClient).Resource. Input is the frame sequence
delivered in order; the end of the list (or a streamEnd sentinel) plays the
role of the nil response on which the loop breaks and the output channel is
closed. First component: the values sent on chanResources, in order. Second
component: whether the goroutine panicked (a Chunk arriving with a matching
checksum while no Header has opened a resource dereferences the nil
currentResource). On a checksum mismatch the source sends
errors.Wrap(err, "chunk checksum did not match") where err is the Recv error,
necessarily nil on this path, and breaks out of the loop. -/
def consumeFrames (hash : HashFn) : Option RRes → List Frame → List ConsumerItem × Bool
| _, [] => ([], false)
| _, Frame.streamEnd :: _ => ([], false)
| cur, Frame.eof _ :: rest =>
  let tail := consumeFrames hash cur rest
  (ConsumerItem.res cur :: tail.1, tail.2)
| cur, Frame.chunk _ payload checksum :: rest =>
  if hash payload ≠ checksum then
    ([ConsumerItem.err (errorsWrap none ("chunk checksum did not match"))], false)
  else
    match cur with
    | none => ([], true)
    | some r => consumeFrames hash (some { r with contents := r.contents ++ payload }) rest
| _, Frame.header h :: rest => consumeFrames hash (some (resourceOfHeader h)) rest

/-- One event delivered to the select loop of (testGRPCServerProvider).Start:
a value on one of the multiplexed channels. abortedReady models the closed
chanAborted case becoming ready, which can fire only once chanAborted has been
closed by a previous abort event. -/
inductive SessionEvent
| stopped
| stderrLine (s : String)
| stdoutLine (s : String)
| abort (cause : String)
| success
| abortedReady
deriving DecidableEq, Repr

/-- State owned by the testGRPCServerProvider event loop, plus observation
fields: stopRequests counts the goroutines launched to call srv.Stop, panicked
records a close of the already-closed chanAborted, loopEnded records that the
loop broke out on a stopped notification. -/
structure ServerState where
  abortError : Option String
  stdErrOutput : List String
  stdOutOutput : List String
  success : Bool
  chanAbortedClosed : Bool
  isAbortedClosed : Bool
  chanFinishedClosed : Bool
  stopRequests : Nat
  panicked : Bool
  loopEnded : Bool
deriving DecidableEq, Repr

/-- State of the provider right after NewTestServer and a successful start. -/
def initialServerState : ServerState :=
  { abortError := none
    stdErrOutput := []
    stdOutOutput := []
    success := false
    chanAbortedClosed := false
    isAbortedClosed := false
    chanFinishedClosed := false
    stopRequests := 0
    panicked := false
    loopEnded := false }

/-- One iteration of the select loop of (testGRPCServerProvider).Start for the
given ready event. Mirrors the source cases: stderr/stdout lines are appended
unless empty; OnAbort assigns abortError and then closes chanAborted
unconditionally - a close of an already-closed channel is a Go runtime panic;
OnSuccess is guarded by the success flag and dispatches an asynchronous Stop on
first occurrence; the chanAborted case is guarded by isAbortedClosed and
dispatches an asynchronous Stop on first occurrence; a stopped notification
closes chanFinished and breaks the loop. -/
def stepEvent (p : ServerState) (e : SessionEvent) : ServerState :=
  if p.panicked || p.loopEnded then p
  else
    match e with
    | SessionEvent.stopped => { p with chanFinishedClosed := true, loopEnded := true }
    | SessionEvent.stderrLine s =>
      if s = "" then p else { p with stdErrOutput := p.stdErrOutput ++ [s] }
    | SessionEvent.stdoutLine s =>
      if s = "" then p else { p with stdOutOutput := p.stdOutOutput ++ [s] }
    | SessionEvent.abort c =>
      if p.chanAbortedClosed then { p with abortError := some c, panicked := true }
      else { p with abortError := some c, chanAbortedClosed := true }
    | SessionEvent.success =>
      if p.success then p
      else { p with success := true, stopRequests := p.stopRequests + 1 }
    | SessionEvent.abortedReady =>
      if p.chanAbortedClosed then
        if p.isAbortedClosed then p
        else { p with isAbortedClosed := true, stopRequests := p.stopRequests + 1 }
      else p

/-- Runs the event loop on a delivered event sequence from the started state. -/
def runEvents (es : List SessionEvent) : ServerState :=
  es.foldl stepEvent initialServerState

/-- The recognized directive keywords of the command decoder. -/
inductive Directive
| ADD
| COPY
| RUN
deriving DecidableEq, Repr

/-- Keyword text of a directive, as matched against the original command. -/
def directiveName : Directive → String
| Directive.ADD => "ADD"
| Directive.COPY => "COPY"
| Directive.RUN => "RUN"

/-- Directive dispatch of (testClient).Commands: the first of the
strings.HasPrefix tests on the OriginalCommand field that matches, in source
order ADD, COPY, RUN; none when the record's directive is unrecognized. -/
def directiveOf (oc : String) : Option Directive :=
  if hasPre ("ADD").data oc.data then some Directive.ADD
  else if hasPre ("COPY").data oc.data then some Directive.COPY
  else if hasPre ("RUN").data oc.data then some Directive.RUN
  else none

/-- One serialized command record of the batch, after the observable outcomes
of the external steps: jsonError is the json.Unmarshal error (none on success),
and originalCommand is the OriginalCommand entry of the unmarshalled map when
the key is present. The raw field carries the record text for identification. -/
structure RawRecord where
  raw : String
  jsonError : Option String
  originalCommand : Option String
deriving DecidableEq, Repr

/-- Outcome of mapstructure.Decode of a record onto the typed variant matching
a directive: none on success, or the decode error. The decoder itself is an
external collaborator, so the batch loop is parametric in it. -/
abbrev FieldDecoder := Directive → RawRecord → Option String

/-- Batch loop of (testClient).Commands over the response records, with the
accumulated fetchedCommands (modelled as directive/record pairs). A
json.Unmarshal error fails the batch; a missing OriginalCommand key skips the
record; an unrecognized directive logs a diagnostic and skips the record; a
recognized directive whose field decode fails returns
errors.Wrap(err, "found KEYWORD but did not deserialize") for the whole batch;
a successful decode appends the command and continues. -/
def commandsLoop (dec : FieldDecoder) :
    List RawRecord → List (Directive × RawRecord) → Except String (List (Directive × RawRecord))
| [], acc => Except.ok acc
| r :: rest, acc =>
  match r.jsonError with
  | some e => Except.error e
  | none =>
    match r.originalCommand with
    | none => commandsLoop dec rest acc
    | some oc =>
      match directiveOf oc with
      | none => commandsLoop dec rest acc
      | some d =>
        match dec d r with
        | some e =>
          Except.error (("found ") ++ directiveName d ++ (" but did not deserialize") ++ (": ") ++ e)
        | none => commandsLoop dec rest (acc ++ [(d, r)])

/-- The commands a fully successful batch decode appends, in input order:
records with a recognized directive and a successful field decode. -/
def decodedOf (dec : FieldDecoder) (recs : List RawRecord) : List (Directive × RawRecord) :=
  recs.filterMap (fun r =>
    match r.jsonError with
    | some _ => none
    | none =>
      match r.originalCommand with
      | none => none
      | some oc =>
        match directiveOf oc with
        | none => none
        | some d =>
          match dec d r with
          | none => some (d, r)
          | some _ => none)

/-- State of the guest-facing gRPC service visible to the RPC surface. -/
structure GRPCService where
  stopped : Bool
deriving DecidableEq, Repr

/-- Error every call against a stopped transport surfaces to its caller. -/
def stoppedErr : String := "transport is stopped"

/-- Modelled from the spec: the service Provider implementation behind the RPC
surface is not among these sources (only its test doubles and client callers
are), so its stopped-state behaviour is taken from the spec, which requires
that after the service is explicitly stopped every call fails: FetchInstructions. -/
def fetchInstructionsRPC (s : GRPCService) : Except String (List String) :=
  if s.stopped then Except.error stoppedErr else Except.ok []

/-- Modelled from the spec: same stopped-service contract for FetchResource. -/
def fetchResourceRPC (s : GRPCService) (path : String) : Except String (List Frame) :=
  if s.stopped then Except.error stoppedErr else Except.ok []

/-- Modelled from the spec: same stopped-service contract for ReportStdOut. -/
def reportStdOutRPC (s : GRPCService) (lines : List String) : Except String Unit :=
  if s.stopped then Except.error stoppedErr else Except.ok ()

/-- Modelled from the spec: same stopped-service contract for ReportStdErr. -/
def reportStdErrRPC (s : GRPCService) (lines : List String) : Except String Unit :=
  if s.stopped then Except.error stoppedErr else Except.ok ()

/-- Modelled from the spec: same stopped-service contract for ReportAbort. -/
def reportAbortRPC (s : GRPCService) (cause : String) : Except String Unit :=
  if s.stopped then Except.error stoppedErr else Except.ok ()

/-- Modelled from the spec: same stopped-service contract for ReportSuccess. -/
def reportSuccessRPC (s : GRPCService) : Except String Unit :=
  if s.stopped then Except.error stoppedErr else Except.ok ()

/-- Modelled from the spec: same stopped-service contract for the Ping liveness
probe, which must fail once the server has stopped. -/
def pingRPC (s : GRPCService) : Except String Unit :=
  if s.stopped then Except.error stoppedErr else Except.ok ()

mutual
theorem specEntry_stats (cfg : WalkCfg) (path : String) (t : FsTree) (n : Nat) :
    (specEntry cfg path t n).2 = n + numEntries t ∧
    countHeaders (specEntry cfg path t n).1 = numEntries t ∧
    countEofs (specEntry cfg path t n).1 = numEntries t ∧
    countStreamEnds (specEntry cfg path t n).1 = 0 ∧
    headerIds (specEntry cfg path t n).1 = List.range' n (numEntries t) := by
  cases t with
  | file fname mode contents =>
    refine ⟨rfl, ?_, ?_, ?_, ?_⟩
    · simp [specEntry, numEntries, countHeaders, countHeaders_append, countHeaders_chunkMap]
    · simp [specEntry, numEntries, countEofs, countEofs_append, countEofs_chunkMap]
    · simp [specEntry, numEntries, countStreamEnds, countStreamEnds_append,
        countStreamEnds_chunkMap]
    · simp [specEntry, numEntries, headerIds, headerIds_append, headerIds_chunkMap,
        mkHeader, List.range']
  | dir dname mode children =>
    obtain ⟨h1, h2, h3, h4, h5⟩ := specForest_stats cfg path children (n + 1)
    refine ⟨?_, ?_, ?_, ?_, ?_⟩
    · simp only [specEntry, numEntries]
      omega
    · simp only [specEntry, numEntries, countHeaders, h2]
      omega
    · simp only [specEntry, numEntries, countEofs, h3]
      omega
    · simp only [specEntry, numEntries, countStreamEnds, h4]
    · simp only [specEntry, numEntries, headerIds, h5, mkHeader]
      rw [Nat.add_comm 1 (numEntriesF children), List.range'_succ]

theorem specForest_stats (cfg : WalkCfg) (path : String) (ts : FsForest) (n : Nat) :
    (specForest cfg path ts n).2 = n + numEntriesF ts ∧
    countHeaders (specForest cfg path ts n).1 = numEntriesF ts ∧
    countEofs (specForest cfg path ts n).1 = numEntriesF ts ∧
    countStreamEnds (specForest cfg path ts n).1 = 0 ∧
    headerIds (specForest cfg path ts n).1 = List.range' n (numEntriesF ts) := by
  cases ts with
  | nil => simp [specForest, numEntriesF, countHeaders, countEofs, countStreamEnds, headerIds,
      List.range']
  | cons t ts =>
    obtain ⟨g1, g2, g3, g4, g5⟩ :=
      specEntry_stats cfg (filepathJoin path (FsTree.name t)) t n
    obtain ⟨h1, h2, h3, h4, h5⟩ :=
      specForest_stats cfg path ts (specEntry cfg (filepathJoin path (FsTree.name t)) t n).2
    rw [g1] at h1 h2 h3 h4 h5
    refine ⟨?_, ?_, ?_, ?_, ?_⟩
    · simp only [specForest, numEntriesF, g1, h1]
      omega
    · simp only [specForest, countHeaders_append, numEntriesF, g1, g2, h2]
    · simp only [specForest, countEofs_append, numEntriesF, g1, g3, h3]
    · simp only [specForest, countStreamEnds_append, numEntriesF, g1, g4, h4]
    · simp only [specForest, headerIds_append, numEntriesF, g1, g5, h5]
      have hr := List.range'_append n (numEntries t) (numEntriesF ts) 1
      simp only [Nat.one_mul, Nat.mul_one] at hr
      rw [Nat.add_comm (numEntries t) (numEntriesF ts)]
      exact hr
end

theorem idsConsistent_chunkMap (n : Nat) (hash : HashFn) (cs : List Bytes) :
    idsConsistentFrom (some n) (cs.map (fun c => Frame.chunk n c (hash c)) ++ [Frame.eof n]) =
      true := by
  induction cs with
  | nil => simp [idsConsistentFrom]
  | cons c cs ih => simp [idsConsistentFrom, ih]

mutual
theorem specEntry_ids (cfg : WalkCfg) (path : String) (t : FsTree) (n : Nat) :
    ∀ cur, idsConsistentFrom cur (specEntry cfg path t n).1 = true := by
  intro cur
  cases t with
  | file fname mode contents =>
    simp [specEntry, idsConsistentFrom, mkHeader, idsConsistent_chunkMap]
  | dir dname mode children =>
    simp [specEntry, idsConsistentFrom, mkHeader,
      specForest_ids cfg path children (n + 1) (some n)]

theorem specForest_ids (cfg : WalkCfg) (path : String) (ts : FsForest) (n : Nat) :
    ∀ cur, idsConsistentFrom cur (specForest cfg path ts n).1 = true := by
  intro cur
  cases ts with
  | nil => simp [specForest, idsConsistentFrom]
  | cons t ts =>
    simp [specForest, idsConsistentFrom_append,
      specEntry_ids cfg (filepathJoin path (FsTree.name t)) t n cur,
      specForest_ids cfg path ts (specEntry cfg (filepathJoin path (FsTree.name t)) t n).2]
end

mutual
/-- Path of each entry of a subtree relative to the walked root, in visiting
order, when the subtree's own root sits at relative path rel: the entry itself
first, then (for directories) the entries of each child, whose relative path
extends rel by the child's name. -/
def relPaths (rel : String) : FsTree → List String
| FsTree.file _ _ _ => [rel]
| FsTree.dir _ _ children => rel :: relPathsF rel children

def relPathsF (rel : String) : FsForest → List String
| FsForest.nil => []
| FsForest.cons t ts => relPaths (filepathJoin rel (FsTree.name t)) t ++ relPathsF rel ts
end

theorem name_ne_empty (t : FsTree) (h : namesNonEmpty t = true) : FsTree.name t ≠ "" := by
  cases t with
  | file fname mode contents =>
    simpa [namesNonEmpty, FsTree.name] using h
  | dir dname mode children =>
    simp [namesNonEmpty, FsTree.name] at h ⊢
    exact h.1

theorem namesNonEmptyF_of_dir (dname : String) (mode : Nat) (children : FsForest)
    (h : namesNonEmpty (FsTree.dir dname mode children) = true) :
    namesNonEmptyF children = true := by
  simp [namesNonEmpty] at h
  exact h.2

mutual
theorem specEntry_paths (cfg : WalkCfg) (hroot : cfg.resolved ≠ "") (t : FsTree)
    (rel : String) (n : Nat) (hn : namesNonEmpty t = true) :
    headerPathsOf (specEntry cfg (absOf cfg.resolved rel) t n).1 =
      (relPaths rel t).map
        (fun r => (filepathJoin cfg.sourcePath r, filepathJoin cfg.targetPath r)) := by
  cases t with
  | file fname mode contents =>
    simp [specEntry, headerPathsOf, headerPathsOf_append, headerPathsOf_chunkMap,
      mkHeader, relPaths, remaining_absOf]
  | dir dname mode children =>
    have hf := specForest_paths cfg hroot children rel (n + 1)
      (namesNonEmptyF_of_dir dname mode children hn)
    simp [specEntry, headerPathsOf, mkHeader, relPaths, remaining_absOf, hf]

theorem specForest_paths (cfg : WalkCfg) (hroot : cfg.resolved ≠ "") (ts : FsForest)
    (rel : String) (n : Nat) (hn : namesNonEmptyF ts = true) :
    headerPathsOf (specForest cfg (absOf cfg.resolved rel) ts n).1 =
      (relPathsF rel ts).map
        (fun r => (filepathJoin cfg.sourcePath r, filepathJoin cfg.targetPath r)) := by
  cases ts with
  | nil => simp [specForest, headerPathsOf, relPathsF]
  | cons t ts =>
    have hcs : namesNonEmpty t = true ∧ namesNonEmptyF ts = true := by
      simpa [namesNonEmptyF] using hn
    have hname := name_ne_empty t hcs.1
    have habs := absOf_join cfg.resolved rel (FsTree.name t) hroot hname
    have hent := specEntry_paths cfg hroot t (filepathJoin rel (FsTree.name t)) n hcs.1
    have hrest := specForest_paths cfg hroot ts rel
      (specEntry cfg (absOf cfg.resolved (filepathJoin rel (FsTree.name t))) t n).2 hcs.2
    simp only [specForest, headerPathsOf_append, relPathsF, List.map_append, habs, hent, hrest]
end

theorem consume_chunkMap (hash : HashFn) (id : Nat) (cs : List Bytes) (r : RRes)
    (rest : List Frame) :
    consumeFrames hash (some r) (cs.map (fun c => Frame.chunk id c (hash c)) ++ rest) =
      consumeFrames hash (some { r with contents := r.contents ++ cs.flatten }) rest := by
  induction cs generalizing r with
  | nil => simp
  | cons c cs ih =>
    simp only [List.map_cons, List.cons_append, consumeFrames, ne_eq, not_true_eq_false,
      if_false, if_neg, List.append_eq]
    rw [ih { r with contents := r.contents ++ c }]
    simp [List.append_assoc]

/-- Directive the batch loop dispatches a record on: the recognized keyword
heading its OriginalCommand field, none when the key is absent or no keyword
matches. -/
def directiveOfRecord (r : RawRecord) : Option Directive :=
  match r.originalCommand with
  | none => none
  | some oc => directiveOf oc

/-- Whether a record cannot trip the fatal branch of the batch loop: either it
is not dispatched on any directive, or its field decode succeeds. -/
def recDecodes (dec : FieldDecoder) (r : RawRecord) : Bool :=
  match directiveOfRecord r with
  | none => true
  | some d => decide (dec d r = none)

theorem commandsLoop_ok_general (dec : FieldDecoder) (recs : List RawRecord)
    (h1 : ∀ r ∈ recs, r.jsonError = none)
    (h2 : ∀ r ∈ recs, recDecodes dec r = true) :
    ∀ acc, commandsLoop dec recs acc = Except.ok (acc ++ decodedOf dec recs) := by
  induction recs with
  | nil =>
    intro acc
    simp [commandsLoop, decodedOf]
  | cons r rest ih =>
    intro acc
    have hj : r.jsonError = none := h1 r (by simp)
    have hd : recDecodes dec r = true := h2 r (by simp)
    have ih2 := ih (fun x hx => h1 x (by simp [hx])) (fun x hx => h2 x (by simp [hx]))
    cases hoc : r.originalCommand with
    | none =>
      simp [commandsLoop, hj, hoc, decodedOf, ih2]
    | some oc =>
      cases hdir : directiveOf oc with
      | none =>
        simp [commandsLoop, hj, hoc, hdir, decodedOf, ih2]
      | some d =>
        have hdec : dec d r = none := by
          simpa [recDecodes, directiveOfRecord, hoc, hdir] using hd
        simp [commandsLoop, hj, hoc, hdir, hdec, decodedOf, ih2, List.append_assoc]

theorem commandsLoop_first_bad (dec : FieldDecoder) (pre : List RawRecord) (r : RawRecord)
    (post : List RawRecord) (d : Directive) (e : String)
    (hpre1 : ∀ x ∈ pre, x.jsonError = none)
    (hpre2 : ∀ x ∈ pre, recDecodes dec x = true)
    (hj : r.jsonError = none) (hdir : directiveOfRecord r = some d)
    (hdec : dec d r = some e) :
    ∀ acc, commandsLoop dec (pre ++ r :: post) acc =
      Except.error
        (("found ") ++ directiveName d ++ (" but did not deserialize") ++ (": ") ++ e) := by
  induction pre with
  | nil =>
    intro acc
    cases hoc : r.originalCommand with
    | none => simp [directiveOfRecord, hoc] at hdir
    | some oc =>
      have hd2 : directiveOf oc = some d := by
        simpa [directiveOfRecord, hoc] using hdir
      simp [commandsLoop, hj, hoc, hd2, hdec]
  | cons x pre ih =>
    intro acc
    have hxj : x.jsonError = none := hpre1 x (by simp)
    have hxd : recDecodes dec x = true := hpre2 x (by simp)
    have ih2 := ih (fun y hy => hpre1 y (by simp [hy])) (fun y hy => hpre2 y (by simp [hy]))
    cases hoc : x.originalCommand with
    | none => simp [commandsLoop, hxj, hoc, ih2]
    | some oc =>
      cases hdir2 : directiveOf oc with
      | none => simp [commandsLoop, hxj, hoc, hdir2, ih2]
      | some d2 =>
        have hdec2 : dec d2 x = none := by
          simpa [recDecodes, directiveOfRecord, hoc, hdir2] using hxd
        simp [commandsLoop, hxj, hoc, hdir2, hdec2, ih2]

/-- Concrete checksum function for closed evaluations: the length of the
payload as a one-element digest. -/
def hashW : HashFn := fun l => [l.length]

/-- Concrete header fixture for closed consumer evaluations; its id is 0. -/
def hdrW : ResourceHeader :=
  { sourcePath := "src/a"
    targetPath := "/t/a"
    fileMode := 420
    isDir := false
    targetUser := "root"
    targetWorkdir := "/"
    id := 0 }

/-- C1: on a chunk whose declared checksum differs from the recomputed hash,
the consumer does stop the request and emits no ReconstructedResource for the
entry, BUT the value it sends is errors.Wrap(err, "chunk checksum did not
match") where err is the Recv error, which is necessarily nil on this path, and
pkg/errors.Wrap of a nil error is nil: the emitted result is nil, not the
distinguished non-nil checksum-failure error the claim requires. Here
hashW [1, 2] = [2] differs from the declared [9], and the consumer's whole
output is a single nil error value. -/
theorem chunk_mismatch_emits_nil_not_error :
    consumeFrames hashW none [Frame.header hdrW, Frame.chunk 0 [1, 2] [9]] =
      ([ConsumerItem.err none], false) := by
  decide

/-- C2: after a first abort has been recorded and its stop request dispatched,
a later success event is NOT ignored: the loop marks the session succeeded as
well and dispatches a second stop request, so both terminal outcomes are
recorded and two stop requests fire, contradicting the first-write-wins,
at-most-once-stop claim. -/
theorem second_terminal_event_not_ignored :
    (runEvents [SessionEvent.abort ("a"), SessionEvent.abortedReady,
        SessionEvent.success]).stopRequests = 2 ∧
    (runEvents [SessionEvent.abort ("a"), SessionEvent.abortedReady,
        SessionEvent.success]).success = true ∧
    (runEvents [SessionEvent.abort ("a"), SessionEvent.abortedReady,
        SessionEvent.success]).abortError = some ("a") ∧
    (runEvents [SessionEvent.abort ("a"), SessionEvent.abortedReady,
        SessionEvent.success]).panicked = false := by
  decide

/-- C10: a second abort event reaches the OnAbort branch, which unconditionally
closes the already-closed chanAborted: the event loop panics instead of
ignoring the event. -/
theorem second_abort_event_panics :
    (runEvents [SessionEvent.abort ("a"), SessionEvent.abort ("b")]).panicked = true := by
  decide

/-- C3: a file transferred through the producer-consumer pipeline with a
positive chunk-size bound round-trips byte-identical: the consumer emits
exactly one reconstructed resource, whose contents - the concatenation of the
accepted chunk payloads in arrival order - equal the file's original
contents. -/
theorem file_roundtrip_preserves_contents (cfg : WalkCfg) (fname : String) (mode : Nat)
    (contents : Bytes) (hb : 0 < cfg.safeBufferSize) :
    ∃ r : RRes,
      consumeFrames cfg.hash none (walkResource cfg (FsTree.file fname mode contents)) =
        ([ConsumerItem.res (some r)], false) ∧ r.contents = contents := by
  refine ⟨{ resourceOfHeader
      (mkHeader cfg (remainingPathOf cfg.resolved cfg.resolved) mode false 0) with
        contents := contents }, ?_, rfl⟩
  rw [walkResource, walkEntry, readLoop_fileReads]
  simp only [List.cons_append, List.append_assoc]
  rw [consumeFrames, consume_chunkMap]
  simp [consumeFrames, flatten_chunksOf cfg.safeBufferSize hb contents, resourceOfHeader]

/-- Walk configuration fixture for closed evaluations. -/
def cfgW : WalkCfg :=
  { hash := hashW
    resolved := "/r"
    safeBufferSize := 2
    sourcePath := "src"
    targetPath := "/t"
    targetUser := "root"
    targetWorkdir := "/" }

/-- Witness for C3 at a concrete configuration and file. -/
theorem file_roundtrip_preserves_contents_witness :
    0 < cfgW.safeBufferSize ∧
    ∃ r : RRes,
      consumeFrames cfgW.hash none
          (walkResource cfgW (FsTree.file ("f.txt") 420 [1, 2, 3])) =
        ([ConsumerItem.res (some r)], false) ∧ r.contents = [1, 2, 3] :=
  ⟨by decide, file_roundtrip_preserves_contents cfgW ("f.txt") 420 [1, 2, 3] (by decide)⟩

/-- Counterexample to C4: the consumer receives a Chunk whose id 99 and an
EntryEnd whose id 7 both differ from the id 0 of the most recently opened
Header, yet it applies the chunk to the current entry and emits the completed
resource - nothing invalidates the stream and no frame is rejected. -/
theorem consumer_applies_mismatched_id_frames :
    consumeFrames hashW none
        [Frame.header hdrW, Frame.chunk 99 [5] (hashW [5]), Frame.eof 7] =
      ([ConsumerItem.res (some { resourceOfHeader hdrW with contents := [5] })], false) := by
  decide

/-- C4 amended: the id discipline is a producer-side invariant, not a consumer
check. Every stream the producer walks satisfies it - each Chunk and EntryEnd
frame carries the id of the most recently opened Header - while the consumer
never inspects ids: its behaviour on a Chunk or EntryEnd frame is identical for
any two ids. -/
theorem producer_ids_consistent_consumer_ignores_ids :
    (∀ (cfg : WalkCfg) (t : FsTree), idsConsistentFrom none (walkResource cfg t) = true) ∧
    (∀ (hash : HashFn) (r : RRes) (i j : Nat) (p c : Bytes) (rest : List Frame),
      consumeFrames hash (some r) (Frame.chunk i p c :: rest) =
        consumeFrames hash (some r) (Frame.chunk j p c :: rest)) ∧
    (∀ (hash : HashFn) (cur : Option RRes) (i j : Nat) (rest : List Frame),
      consumeFrames hash cur (Frame.eof i :: rest) =
        consumeFrames hash cur (Frame.eof j :: rest)) := by
  refine ⟨?_, ?_, ?_⟩
  · intro cfg t
    rw [walkResource, idsConsistentFrom_append, walkEntry_eq_specEntry]
    simp [specEntry_ids, idsConsistentFrom]
  · intro hash r i j p c rest
    rfl
  · intro hash cur i j rest
    rfl

/-- C5: the producer's read loop checks the read error only in conjunction with
a zero-byte read being io.EOF. On a persistent non-EOF read failure (for
example a file whose open failed, whose reads keep returning 0 bytes and a
non-EOF error) the loop never aborts the entry: it takes the else branch on
every iteration, emitting one chunk frame per failed read - for a zero-byte
read an empty chunk carrying the hash of the empty payload - and never
terminates the entry, contradicting the claim that production is aborted. -/
theorem producer_read_error_keeps_emitting_chunks (hash : HashFn) (id : Nat)
    (reads : List (Bytes × ReadErr))
    (h : ∀ r ∈ reads, ¬(r.1.length = 0 ∧ r.2 = ReadErr.eof)) :
    (readLoop hash id reads).2 = false ∧
    (readLoop hash id reads).1.length = reads.length ∧
    ∀ f ∈ (readLoop hash id reads).1, ∃ p, f = Frame.chunk id p (hash p) := by
  induction reads with
  | nil => simp [readLoop]
  | cons r rest ih =>
    have hr := h r (by simp)
    obtain ⟨i1, i2, i3⟩ := ih (fun x hx => h x (by simp [hx]))
    rw [readLoop, if_neg hr]
    refine ⟨i1, by simp [i2], ?_⟩
    intro f hf
    rcases List.mem_cons.mp hf with hf2 | hf2
    · exact ⟨r.1, hf2⟩
    · exact i3 f hf2

/-- Read-result fixture: three reads that each return zero bytes and a non-EOF
error, as a nil os.File reader produces after a failed open. -/
def readsW : List (Bytes × ReadErr) :=
  [([], ReadErr.other), ([], ReadErr.other), ([], ReadErr.other)]

/-- Witness for C5 at the concrete failing reads. -/
theorem producer_read_error_keeps_emitting_chunks_witness :
    (∀ r ∈ readsW, ¬(r.1.length = 0 ∧ r.2 = ReadErr.eof)) ∧
    ((readLoop hashW 7 readsW).2 = false ∧
      (readLoop hashW 7 readsW).1.length = readsW.length ∧
      ∀ f ∈ (readLoop hashW 7 readsW).1, ∃ p, f = Frame.chunk 7 p (hashW p)) :=
  ⟨by decide, producer_read_error_keeps_emitting_chunks hashW 7 readsW (by decide)⟩

/-- C6: the walk emits exactly the frame sequence the specification prescribes:
entry by entry it equals the spec-side sequence (directories yield a Header
with isDir=true immediately followed by their EntryEnd and no chunk frames;
files yield a Header with isDir=false, one chunk per bounded-size piece with
checksum the hash of its payload, then their EntryEnd); the whole stream
carries exactly one Header and one EntryEnd per filesystem entry, exactly one
streamEnd sentinel, placed last, and the header ids are the fresh consecutive
ids 0, 1, ... numbering the entries. -/
theorem walk_emits_spec_frame_sequence (cfg : WalkCfg) (t : FsTree) :
    (∀ path n, walkEntry cfg path t n = specEntry cfg path t n) ∧
    countHeaders (walkResource cfg t) = numEntries t ∧
    countEofs (walkResource cfg t) = numEntries t ∧
    countStreamEnds (walkResource cfg t) = 1 ∧
    (walkResource cfg t).getLast? = some Frame.streamEnd ∧
    headerIds (walkResource cfg t) = List.range' 0 (numEntries t) := by
  obtain ⟨s1, s2, s3, s4, s5⟩ := specEntry_stats cfg cfg.resolved t 0
  have heq := walkEntry_eq_specEntry cfg cfg.resolved t 0
  refine ⟨fun path n => walkEntry_eq_specEntry cfg path t n, ?_, ?_, ?_, ?_, ?_⟩
  · simp [walkResource, heq, countHeaders_append, s2, countHeaders]
  · simp [walkResource, heq, countEofs_append, s3, countEofs]
  · simp [walkResource, heq, countStreamEnds_append, s4, countStreamEnds]
  · simp [walkResource]
  · simp [walkResource, heq, headerIds_append, s5, headerIds]

/-- C7: the source and target paths of the headers the walk emits are, in
visiting order, exactly the entries' root-relative paths joined onto the
configured source-path and target-path prefixes: the walk computes them by
stripping the walked root from each entry's absolute path and joining the
remainder onto both prefixes, preserving the nested structure on both sides. -/
theorem header_paths_are_prefixed_relative_paths (cfg : WalkCfg) (t : FsTree)
    (hroot : cfg.resolved ≠ "") (hn : namesNonEmpty t = true) :
    headerPathsOf (walkResource cfg t) =
      (relPaths "" t).map
        (fun r => (filepathJoin cfg.sourcePath r, filepathJoin cfg.targetPath r)) := by
  have habs : absOf cfg.resolved "" = cfg.resolved := by simp [absOf]
  have h := specEntry_paths cfg hroot t "" 0 hn
  rw [habs] at h
  rw [walkResource, headerPathsOf_append, walkEntry_eq_specEntry, h]
  simp [headerPathsOf]

/-- Tree fixture: a directory holding a file and a nested directory with a
file. -/
def treeW : FsTree :=
  FsTree.dir ("d") 493
    (FsForest.cons (FsTree.file ("a") 420 [1, 2])
      (FsForest.cons
        (FsTree.dir ("sub") 493 (FsForest.cons (FsTree.file ("b") 420 [3]) FsForest.nil))
        FsForest.nil))

/-- Witness for C7 at a concrete configuration and tree. -/
theorem header_paths_are_prefixed_relative_paths_witness :
    (cfgW.resolved ≠ "" ∧ namesNonEmpty treeW = true) ∧
    headerPathsOf (walkResource cfgW treeW) =
      (relPaths "" treeW).map
        (fun r => (filepathJoin cfgW.sourcePath r, filepathJoin cfgW.targetPath r)) :=
  ⟨⟨by decide, by decide⟩,
    header_paths_are_prefixed_relative_paths cfgW treeW (by decide) (by decide)⟩

/-- C8: in the batch decode, every record whose directive is unrecognized (or
whose OriginalCommand key is absent) is skipped and the decode succeeds for the
remaining records, returning exactly the recognized, successfully decoded
commands in input order; while the first record whose directive is recognized
but whose fields fail to decode onto the matching variant makes the whole batch
return the error wrapping the decode failure and naming the offending
directive. -/
theorem decode_skips_unknown_fails_batch_on_bad_record (dec : FieldDecoder)
    (recs : List RawRecord) :
    ((∀ r ∈ recs, r.jsonError = none) →
      (∀ r ∈ recs, recDecodes dec r = true) →
      commandsLoop dec recs [] = Except.ok (decodedOf dec recs)) ∧
    (∀ pre r post d e, recs = pre ++ r :: post →
      (∀ x ∈ pre, x.jsonError = none) →
      (∀ x ∈ pre, recDecodes dec x = true) →
      r.jsonError = none → directiveOfRecord r = some d → dec d r = some e →
      commandsLoop dec recs [] =
        Except.error
          (("found ") ++ directiveName d ++ (" but did not deserialize") ++ (": ") ++ e)) := by
  constructor
  · intro h1 h2
    simpa using commandsLoop_ok_general dec recs h1 h2 []
  · intro pre r post d e hrecs hpre1 hpre2 hj hdir hdec
    subst hrecs
    exact commandsLoop_first_bad dec pre r post d e hpre1 hpre2 hj hdir hdec []

/-- Field-decoder fixture: decoding fails exactly on the record whose raw text
is the bad one. -/
def decW : FieldDecoder := fun _ r => if r.raw = "bad" then some ("boom") else none

/-- Record fixture with an unrecognized directive. -/
def recW1 : RawRecord :=
  { raw := "from", jsonError := none, originalCommand := some ("FROM alpine") }

/-- Record fixture with the execute directive and decodable fields. -/
def recW2 : RawRecord :=
  { raw := "run", jsonError := none, originalCommand := some ("RUN ls") }

/-- Record fixture whose recognized directive has undecodable fields. -/
def recW3 : RawRecord :=
  { raw := "bad", jsonError := none, originalCommand := some ("ADD x y") }

/-- Witness for C8: a batch with an unrecognized record decodes successfully to
the recognized remainder, and a batch holding a recognized but undecodable
record fails with the wrapping error. -/
theorem decode_skips_unknown_fails_batch_on_bad_record_witness :
    commandsLoop decW [recW1, recW2] [] = Except.ok (decodedOf decW [recW1, recW2]) ∧
    commandsLoop decW [recW1, recW3] [] =
      Except.error
        (("found ") ++ directiveName Directive.ADD ++ (" but did not deserialize") ++
          (": ") ++ ("boom")) :=
  ⟨(decode_skips_unknown_fails_batch_on_bad_record decW [recW1, recW2]).1
      (by decide) (by decide),
    (decode_skips_unknown_fails_batch_on_bad_record decW [recW1, recW3]).2
      [recW1] recW3 [] Directive.ADD ("boom") rfl (by decide) (by decide) (by decide)
      (by decide) (by decide)⟩

/-- C9: once the service has been stopped, every RPC operation - the
instruction fetch, the resource fetch, both log reports, abort, success and the
ping probe - returns an error to its caller. -/
theorem stopped_service_rejects_all_rpcs (s : GRPCService) (h : s.stopped = true) :
    fetchInstructionsRPC s = Except.error stoppedErr ∧
    (∀ path, fetchResourceRPC s path = Except.error stoppedErr) ∧
    (∀ lines, reportStdOutRPC s lines = Except.error stoppedErr) ∧
    (∀ lines, reportStdErrRPC s lines = Except.error stoppedErr) ∧
    (∀ cause, reportAbortRPC s cause = Except.error stoppedErr) ∧
    reportSuccessRPC s = Except.error stoppedErr ∧
    pingRPC s = Except.error stoppedErr := by
  refine ⟨?_, fun path => ?_, fun lines => ?_, fun lines => ?_, fun cause => ?_, ?_, ?_⟩ <;>
    simp [fetchInstructionsRPC, fetchResourceRPC, reportStdOutRPC, reportStdErrRPC,
      reportAbortRPC, reportSuccessRPC, pingRPC, h]

/-- Witness for C9 at the stopped service. -/
theorem stopped_service_rejects_all_rpcs_witness :
    ({ stopped := true } : GRPCService).stopped = true ∧
    (fetchInstructionsRPC { stopped := true } = Except.error stoppedErr ∧
      (∀ path, fetchResourceRPC { stopped := true } path = Except.error stoppedErr) ∧
      (∀ lines, reportStdOutRPC { stopped := true } lines = Except.error stoppedErr) ∧
      (∀ lines, reportStdErrRPC { stopped := true } lines = Except.error stoppedErr) ∧
      (∀ cause, reportAbortRPC { stopped := true } cause = Except.error stoppedErr) ∧
      reportSuccessRPC { stopped := true } = Except.error stoppedErr ∧
      pingRPC { stopped := true } = Except.error stoppedErr) :=
  ⟨rfl, stopped_service_rejects_all_rpcs { stopped := true } rfl⟩
